import Mathlib

/-!
Verification of the backfiller component of src/clustering/backfiller.hpp.

The development shallowly embeds the two message handlers of
backfiller_t (on_backfill and on_cancel_backfill), the session
registry (the local_interruptors map), the construction-time branch
invariants, and the destruction order of the members of backfiller_t.
External collaborators that the source only calls (the store streaming
operation, the cluster transport) are modelled through the contracts the
handler relies on; repository classes whose sources are not available here
(cond_t, wait_any_t, map_insertion_sentry_t, auto_drainer_t, rassert) are
modelled from their specified behaviour, as marked in the doc comments.
-/

namespace Backfiller

/-- Logical timestamp type of the source (state_timestamp_t), modelled as a
natural number: a totally ordered value measuring progress through a
write history of a branch. -/
abbrev state_timestamp_t := Nat

/-- Session identifiers (backfill_session_id_t of line 35), modelled as
natural numbers; opaque values chosen by the backfillee. -/
abbrev session_id_t := Nat

/-- Mailbox addresses, modelled as natural numbers; the handler only ever
passes them to send, so their structure is irrelevant. -/
abbrev address_t := Nat

/-- Outcome of one call to the external store streaming operation
store->backfiller(request, send_fun, &interrupted) at lines 68-71: the call
either returns normally with a final timestamp, unwinds by throwing
interrupted_exc_t, or unwinds with a store-level exception of any other
type. The store itself is an external collaborator; this type records how
one invocation of it ended, as observed by the handler. -/
inductive StoreResult where
  | returns (ts : state_timestamp_t)
  | interruptedExc
  | otherExc
deriving DecidableEq

/-- One run of the external store operation as observed by the handler:
the chunks it pushed through send_fun while running, in production order,
and how the call ended. -/
structure StoreRun (χ : Type) where
  chunks : List χ
  result : StoreResult

/-- A message issued by the on_backfill handler over the cluster: either a
backfill chunk sent to the chunk mailbox address (via send_fun, lines
57-62), or the final timestamp sent to the end mailbox address (line 80). -/
inductive message (χ : Type) where
  | chunk (addr : address_t) (c : χ)
  | completion (addr : address_t) (ts : state_timestamp_t)
deriving DecidableEq

/-- Observable result of one on_backfill handler invocation: the messages
it issued, in issue order, and whether an exception escaped the handler
body (propagated past the handler boundary). -/
structure HandlerRun (χ : Type) where
  sent : List (message χ)
  propagates : Bool

/-- Embedding of backfiller_t::on_backfill, lines 37-82, for one session,
parameterised by the observed store run. send_fun (lines 57-62) forwards
every chunk the store produces, unmodified, to chunk_cont, so the chunk
messages appear first and in production order. If the store returns
normally (success = true) the handler then sends exactly one completion
message with the returned timestamp to end_cont (lines 79-81). The catch
clause at line 73 catches interrupted_exc_t only, so on interruption the
handler exits quietly, while an exception of any other type escapes the
handler (there is no other catch clause). -/
def on_backfill {χ : Type} (chunk_cont end_cont : address_t) (r : StoreRun χ) : HandlerRun χ :=
  match r.result with
  | StoreResult.returns ts =>
      ⟨r.chunks.map (message.chunk chunk_cont) ++ [message.completion end_cont ts], false⟩
  | StoreResult.interruptedExc => ⟨r.chunks.map (message.chunk chunk_cont), false⟩
  | StoreResult.otherExc => ⟨r.chunks.map (message.chunk chunk_cont), true⟩

/-- Recogniser for completion messages. -/
def isCompletion {χ : Type} : message χ → Bool
  | message.completion _ _ => true
  | message.chunk _ _ => false

/-- Recogniser for chunk messages. -/
def isChunk {χ : Type} : message χ → Bool
  | message.chunk _ _ => true
  | message.completion _ _ => false

/-- Number of completion messages in a message list. -/
def numCompletions {χ : Type} (l : List (message χ)) : Nat :=
  (l.filter isCompletion).length

/-- Chunk messages carry no completions. -/
theorem filter_isCompletion_chunks {χ : Type} (a : address_t) (l : List χ) :
    (l.map (message.chunk a)).filter isCompletion = [] := by
  induction l with
  | nil => rfl
  | cons c t ih => simp [isCompletion, ih]

/-- C1: one handler invocation issues at most one completion message, and
when the store operation returns normally with final timestamp ts, the
handler issues exactly one completion message, carrying ts, addressed to
the end address of the session. Sessions are in bijection with on_backfill
invocations and the completion send at line 80 is the only completion send
in the component, so this is the per-session completion count. -/
theorem at_most_one_completion_and_exact_on_return {χ : Type}
    (chunk_cont end_cont : address_t) (r : StoreRun χ) :
    numCompletions (on_backfill chunk_cont end_cont r).sent ≤ 1 ∧
    ∀ ts, r.result = StoreResult.returns ts →
      (on_backfill chunk_cont end_cont r).sent.filter isCompletion =
        [message.completion end_cont ts] := by
  constructor
  · cases hr : r.result <;>
      simp [on_backfill, hr, numCompletions, List.filter_append,
        filter_isCompletion_chunks, isCompletion]
  · intro ts h
    simp [on_backfill, h, List.filter_append, filter_isCompletion_chunks, isCompletion]

/-- Witness for C1 at a concrete store run producing chunks 1, 2 and
returning timestamp 9. -/
theorem at_most_one_completion_and_exact_on_return_witness :
    numCompletions (on_backfill 0 1 (⟨[1, 2], StoreResult.returns 9⟩ : StoreRun Nat)).sent ≤ 1 ∧
    (on_backfill 0 1 (⟨[1, 2], StoreResult.returns 9⟩ : StoreRun Nat)).sent.filter isCompletion =
      [message.completion 1 9] :=
  ⟨(at_most_one_completion_and_exact_on_return 0 1 ⟨[1, 2], StoreResult.returns 9⟩).1,
   (at_most_one_completion_and_exact_on_return 0 1 ⟨[1, 2], StoreResult.returns 9⟩).2 9 rfl⟩

/-- Modelled from the spec: wait_any_t (used at line 52) composes the
local interruptor cond of the handler with the keepalive drain signal so that
the combined interrupt is pulsed exactly when either constituent is (the
any-of composition of interrupt signals, spec section 2; the wait_any_t
class itself is repository code not included under src/). -/
def interrupted_pulsed (local_interruptor drain_signal : Bool) : Bool :=
  local_interruptor || drain_signal

/-- Modelled from the spec: the external store streaming operation fails
by unwinding, not returning, when the interrupt fires before it would
have returned normally (store interface contract, spec section 6). A
store run honours the interrupt when, given that the combined interrupt
fired, the call ended by throwing interrupted_exc_t. -/
def storeHonoursInterrupt {χ : Type} (combinedFired : Bool) (r : StoreRun χ) : Prop :=
  combinedFired = true → r.result = StoreResult.interruptedExc

/-- C2: when the combined interrupt (local cancel or shutdown) fires
strictly before the store operation would have returned normally, the
store call unwinds with interrupted_exc_t, the handler sends no
completion message, and the interruption is absorbed inside the handler
(the catch at line 73 swallows it; success stays false and nothing
escapes). -/
theorem interruption_aborts_without_completion {χ : Type}
    (chunk_cont end_cont : address_t) (local_fired drain_fired : Bool) (r : StoreRun χ)
    (hfire : interrupted_pulsed local_fired drain_fired = true)
    (hstore : storeHonoursInterrupt (interrupted_pulsed local_fired drain_fired) r) :
    r.result = StoreResult.interruptedExc ∧
    numCompletions (on_backfill chunk_cont end_cont r).sent = 0 ∧
    (on_backfill chunk_cont end_cont r).propagates = false := by
  have hres := hstore hfire
  refine ⟨hres, ?_, ?_⟩ <;>
    simp [on_backfill, hres, numCompletions, filter_isCompletion_chunks]

/-- Witness for C2: a session whose local interruptor fired while the
store had produced one chunk and then threw interrupted_exc_t. -/
theorem interruption_aborts_without_completion_witness :
    (⟨[5], StoreResult.interruptedExc⟩ : StoreRun Nat).result = StoreResult.interruptedExc ∧
    numCompletions (on_backfill 0 1 (⟨[5], StoreResult.interruptedExc⟩ : StoreRun Nat)).sent = 0 ∧
    (on_backfill 0 1 (⟨[5], StoreResult.interruptedExc⟩ : StoreRun Nat)).propagates = false :=
  interruption_aborts_without_completion 0 1 true false
    ⟨[5], StoreResult.interruptedExc⟩ rfl (fun _ => rfl)

/-- Address and payload of every chunk message in a message list, in
order. -/
def chunkPayloads {χ : Type} (l : List (message χ)) : List (address_t × χ) :=
  l.filterMap fun m => match m with
    | message.chunk a c => some (a, c)
    | message.completion _ _ => none

/-- Chunk payload extraction distributes over append. -/
theorem chunkPayloads_append {χ : Type} (l₁ l₂ : List (message χ)) :
    chunkPayloads (l₁ ++ l₂) = chunkPayloads l₁ ++ chunkPayloads l₂ :=
  List.filterMap_append l₁ l₂ _

/-- Chunk payload extraction recovers a mapped chunk list. -/
theorem chunkPayloads_chunks {χ : Type} (a : address_t) (l : List χ) :
    chunkPayloads (l.map (message.chunk a)) = l.map fun c => (a, c) := by
  induction l with
  | nil => rfl
  | cons c t ih =>
    simp only [chunkPayloads, List.filterMap] at ih ⊢
    simp [ih]

/-- A singleton completion has no chunk payloads. -/
theorem chunkPayloads_completion {χ : Type} (e : address_t) (ts : state_timestamp_t) :
    chunkPayloads ([message.completion e ts] : List (message χ)) = [] := rfl

/-- C3: for one session, (i) the chunk messages the handler issues are
exactly the chunks the store produced, unmodified, addressed to the
chunk address of the session and in production order; (ii) positionally, the
first chunks-many messages issued are exactly those chunk sends in order;
and (iii) every message issued after them is not a chunk, so the
completion message (when sent) is issued only after the last chunk send. -/
theorem chunks_forwarded_in_order_before_completion {χ : Type}
    (chunk_cont end_cont : address_t) (r : StoreRun χ) :
    chunkPayloads (on_backfill chunk_cont end_cont r).sent =
      r.chunks.map (fun c => (chunk_cont, c)) ∧
    (on_backfill chunk_cont end_cont r).sent.take r.chunks.length =
      r.chunks.map (message.chunk chunk_cont) ∧
    ∀ m ∈ (on_backfill chunk_cont end_cont r).sent.drop r.chunks.length,
      isChunk m = false := by
  refine ⟨?_, ?_, ?_⟩
  · cases hr : r.result <;>
      simp [on_backfill, hr, chunkPayloads_append, chunkPayloads_chunks,
        chunkPayloads_completion]
  · cases hr : r.result with
    | returns ts =>
      simp [on_backfill, hr, List.length_map]
    | interruptedExc => simp [on_backfill, hr, List.take_of_length_le]
    | otherExc => simp [on_backfill, hr, List.take_of_length_le]
  · intro m hm
    cases hr : r.result with
    | returns ts =>
      have h := List.drop_left (r.chunks.map (message.chunk chunk_cont))
        [message.completion end_cont ts]
      rw [on_backfill] at hm
      simp only [hr] at hm
      rw [show r.chunks.length = (r.chunks.map (message.chunk chunk_cont)).length by
        simp [List.length_map]] at hm
      rw [h] at hm
      simp only [List.mem_singleton] at hm
      subst hm
      rfl
    | interruptedExc =>
      rw [on_backfill] at hm
      simp only [hr] at hm
      rw [List.drop_eq_nil_of_le (by simp [List.length_map])] at hm
      simp at hm
    | otherExc =>
      rw [on_backfill] at hm
      simp only [hr] at hm
      rw [List.drop_eq_nil_of_le (by simp [List.length_map])] at hm
      simp at hm

/-- Witness for C3 at a concrete run producing chunks 4, 5 and returning
timestamp 9. -/
theorem chunks_forwarded_in_order_before_completion_witness :
    chunkPayloads (on_backfill 2 3 (⟨[4, 5], StoreResult.returns 9⟩ : StoreRun Nat)).sent =
      [(2, 4), (2, 5)] ∧
    (on_backfill 2 3 (⟨[4, 5], StoreResult.returns 9⟩ : StoreRun Nat)).sent.take 2 =
      [message.chunk 2 4, message.chunk 2 5] ∧
    isChunk (message.completion 3 9 : message Nat) = false :=
  ⟨(chunks_forwarded_in_order_before_completion 2 3 ⟨[4, 5], StoreResult.returns 9⟩).1,
   (chunks_forwarded_in_order_before_completion 2 3 ⟨[4, 5], StoreResult.returns 9⟩).2.1,
   (chunks_forwarded_in_order_before_completion 2 3 ⟨[4, 5], StoreResult.returns 9⟩).2.2
     (message.completion 3 9) (by decide)⟩

/-- C9 counterexample: the try block at lines 67-76 catches
interrupted_exc_t only, so a store-level exception of any other type is
not absorbed by the handler; at this concrete run it escapes the handler
boundary, contradicting the claim that it is silently dropped. -/
theorem other_exception_escapes_cex :
    ¬ (on_backfill 0 1 (⟨[], StoreResult.otherExc⟩ : StoreRun Nat)).propagates = false := by
  decide

/-- C9 amended: when the store operation throws an exception other than
interrupted_exc_t, the handler does not absorb it — it propagates past
the handler boundary — and no completion message is sent. -/
theorem only_interruption_absorbed {χ : Type} (chunk_cont end_cont : address_t)
    (r : StoreRun χ) (h : r.result = StoreResult.otherExc) :
    (on_backfill chunk_cont end_cont r).propagates = true ∧
    numCompletions (on_backfill chunk_cont end_cont r).sent = 0 := by
  refine ⟨?_, ?_⟩ <;>
    simp [on_backfill, h, numCompletions, filter_isCompletion_chunks]

/-- Witness for the amended C9 at a concrete run that produced one chunk
and then threw a non-interruption exception. -/
theorem only_interruption_absorbed_witness :
    (on_backfill 0 1 (⟨[7], StoreResult.otherExc⟩ : StoreRun Nat)).propagates = true ∧
    numCompletions (on_backfill 0 1 (⟨[7], StoreResult.otherExc⟩ : StoreRun Nat)).sent = 0 :=
  only_interruption_absorbed 0 1 ⟨[7], StoreResult.otherExc⟩ rfl

/-- Branch identifiers (branch_id_t), modelled as natural numbers. -/
abbrev branch_id_t := Nat

/-- Branch metadata held by the branch history registry: the region the
branch covers and the logical timestamp at which it began (spec section
3; the concrete C++ type is defined outside src/). Regions are modelled
as natural numbers, compared for equality only, as the constructor does
at line 30. -/
structure branch_metadata_t where
  region : Nat
  initial_timestamp : state_timestamp_t

/-- The read view of the branch history registry, modelled as the lookup
function it provides: branch id to branch metadata. -/
def branch_history_t := branch_id_t → branch_metadata_t

/-- Lookup of the metadata of a branch in the branch history view, as used by
branch_find(branch_history, store_branch) at lines 30-31. -/
def branch_find (bh : branch_history_t) (b : branch_id_t) : branch_metadata_t :=
  bh b

/-- A constructed backfiller_t, keeping the members the construction
invariants constrain: the branch history view, the region and
current timestamp of the store, and the branch id the store claims to be on (lines
95-99; the store is reduced to the two observations get_region and
get_timestamp that the constructor makes of it). -/
structure backfiller_t where
  branch_history : branch_history_t
  store_region : Nat
  store_timestamp : state_timestamp_t
  store_branch : branch_id_t

/-- Modelled from the spec: rassert (lines 30-31) aborts construction
fatally when its condition is false (the rassert macro is repository code
not included under src/; per spec section 4.1 the two preconditions are
checked synchronously and are fatal if violated). Construction therefore
either returns a backfiller satisfying both checks or fails, modelled as
Option. The checks are, in source order: the region of the store equals the
region of the branch it claims to be on, and the timestamp of the store is
at least the initial timestamp of the branch. -/
def backfiller_t.construct (bh : branch_history_t) (store_region : Nat)
    (store_timestamp : state_timestamp_t) (sb : branch_id_t) : Option backfiller_t :=
  if store_region = (branch_find bh sb).region then
    if (branch_find bh sb).initial_timestamp ≤ store_timestamp then
      some ⟨bh, store_region, store_timestamp, sb⟩
    else none
  else none

/-- C5: every constructed backfiller satisfies both branch invariants —
its store region equals the region of the branch metadata looked up under
its claimed branch id and its store timestamp is at least the initial
timestamp of that branch — and construction fails exactly when one of the two
conditions is false at call time, so no backfiller violating either is
ever constructed. -/
theorem construction_checks_branch_invariants (bh : branch_history_t)
    (store_region : Nat) (store_timestamp : state_timestamp_t) (sb : branch_id_t) :
    (∀ b, backfiller_t.construct bh store_region store_timestamp sb = some b →
      b.store_region = (branch_find b.branch_history b.store_branch).region ∧
      (branch_find b.branch_history b.store_branch).initial_timestamp ≤ b.store_timestamp) ∧
    (backfiller_t.construct bh store_region store_timestamp sb = none ↔
      ¬ (store_region = (branch_find bh sb).region ∧
         (branch_find bh sb).initial_timestamp ≤ store_timestamp)) := by
  constructor
  · intro b hb
    rw [backfiller_t.construct] at hb
    split at hb
    · split at hb
      · cases hb
        constructor <;> simp_all
      · cases hb
    · cases hb
  · rw [backfiller_t.construct]
    split_ifs with h1 h2 <;> simp_all

/-- Witness for C5: a store with region 7 and timestamp 5 on a branch
whose metadata is region 7, initial timestamp 5; construction succeeds
and the constructed backfiller satisfies both invariants. -/
theorem construction_checks_branch_invariants_witness :
    (backfiller_t.mk (fun _ => ⟨7, 5⟩) 7 5 0).store_region =
      (branch_find (backfiller_t.mk (fun _ => ⟨7, 5⟩) 7 5 0).branch_history
        (backfiller_t.mk (fun _ => ⟨7, 5⟩) 7 5 0).store_branch).region ∧
    (branch_find (backfiller_t.mk (fun _ => ⟨7, 5⟩) 7 5 0).branch_history
        (backfiller_t.mk (fun _ => ⟨7, 5⟩) 7 5 0).store_branch).initial_timestamp ≤
      (backfiller_t.mk (fun _ => ⟨7, 5⟩) 7 5 0).store_timestamp :=
  (construction_checks_branch_invariants (fun _ => ⟨7, 5⟩) 7 5 0).1
    (backfiller_t.mk (fun _ => ⟨7, 5⟩) 7 5 0) rfl

/-- Mutable state of one backfiller instance as seen by its two message
handlers: the session registry local_interruptors (line 102), modelled as
an association list from session id to the index of the local
interruptor cond of that session; the pool of all conds ever allocated by handler
invocations, with their pulsed flags (cond_t is one-shot, so a Bool per
cond); the session ids for which a completion message has been issued;
and the drain flags of shutdown. All mutation is thread-confined in the
source (assert_thread, lines 44 and 86), so handlers interleave only at
suspension points and each step below is one such atomic section. -/
structure SysState where
  local_interruptors : List (session_id_t × Nat)
  sigs : List Bool
  sent_completions : List session_id_t
  drainPulsed : Bool
  drained : Bool
deriving DecidableEq

/-- State of a freshly constructed backfiller: empty registry, no conds
allocated, nothing sent, drain not begun. -/
def init : SysState := ⟨[], [], [], false, false⟩

/-- Embedding of backfiller_t::on_cancel_backfill, lines 84-93: look the
session id up in local_interruptors; if an entry is found, pulse the cond
it refers to (modelled from the spec: cond_t is a one-shot flag, so pulse
sets its pulsed bit; the cond_t class is repository code not included
under src/); if no entry is found, do nothing. The function sends no
message and performs no other mutation. -/
def on_cancel_backfill (s : SysState) (sid : session_id_t) : SysState :=
  match s.local_interruptors.lookup sid with
  | some i => { s with sigs := s.sigs.set i true }
  | none => s

/-- Atomic sections of the handlers of the backfiller, as interleaved on its
owning thread: entry of a start-backfill handler for a session id, return
of that handler by any path (recording whether it sent a completion),
delivery of a cancel-backfill message, the destructor pulsing the drain
signal, and the drain wait completing. -/
inductive Event where
  | start (sid : session_id_t)
  | finish (sid : session_id_t) (completed : Bool)
  | cancel (sid : session_id_t)
  | pulseDrain
  | completeDrain
deriving DecidableEq

/-- One atomic section of the backfiller. start embeds the prefix of
on_backfill before its first suspension point (lines 44-62): allocate a
fresh local interruptor cond and register it under the session id
(map_insertion_sentry_t, line 49); the session id is required fresh, per
the data model of the spec (session identifiers are unique per outstanding
request), and modelled from the spec the drain barrier admits no new
operation once shutdown has begun. finish embeds the handler returning by
any path — normal completion, interruption, or exception unwinding —
and modelled from the spec map_insertion_sentry_t removes the registry
entry on every exit path (the sentry class is repository code not
included under src/). cancel embeds one delivery of on_cancel_backfill.
pulseDrain and completeDrain are modelled from the drain barrier of the spec
(auto_drainer_t, lines 24-25 and 101, is repository code not included
under src/): destruction pulses the shared drain signal and then waits,
and the wait can complete only when no handler is still registered. -/
def step (s : SysState) : Event → Option SysState
  | Event.start sid =>
    if s.drainPulsed then none
    else match s.local_interruptors.lookup sid with
      | some _ => none
      | none => some { s with
          local_interruptors := s.local_interruptors ++ [(sid, s.sigs.length)],
          sigs := s.sigs ++ [false] }
  | Event.finish sid completed =>
    match s.local_interruptors.lookup sid with
    | some _ => some { s with
        local_interruptors := s.local_interruptors.filter fun p => p.1 != sid,
        sent_completions :=
          if completed then s.sent_completions ++ [sid] else s.sent_completions }
    | none => none
  | Event.cancel sid =>
    if s.drainPulsed then none else some (on_cancel_backfill s sid)
  | Event.pulseDrain =>
    if s.drainPulsed then none else some { s with drainPulsed := true }
  | Event.completeDrain =>
    if s.drainPulsed && s.local_interruptors.isEmpty then some { s with drained := true }
    else none

/-- Execution of a sequence of atomic sections from a given state; none
when the precondition of some section fails. -/
def run : SysState → List Event → Option SysState
  | s, [] => some s
  | s, e :: t =>
    match step s e with
    | some s1 => run s1 t
    | none => none

/-- Looking a key up after appending a fresh binding for it finds that
binding. -/
theorem lookup_append_self (l : List (session_id_t × Nat)) (k v : Nat)
    (h : l.lookup k = none) : (l ++ [(k, v)]).lookup k = some v := by
  induction l with
  | nil => simp [List.lookup]
  | cons p t ih =>
    obtain ⟨a, b⟩ := p
    cases hc : k == a with
    | true => simp [List.lookup, hc] at h
    | false =>
      simp only [List.lookup, hc] at h
      simp only [List.cons_append, List.lookup, hc]
      exact ih h

/-- Looking a key up after filtering out its bindings finds nothing. -/
theorem lookup_filter_ne (l : List (session_id_t × Nat)) (k : Nat) :
    (l.filter fun p => p.1 != k).lookup k = none := by
  induction l with
  | nil => rfl
  | cons p t ih =>
    obtain ⟨a, b⟩ := p
    by_cases hak : a = k
    · simp [List.filter_cons, hak, ih]
    · have h1 : (a != k) = true := by simpa using hak
      have h2 : (k == a) = false := by
        cases hkk : k == a with
        | false => rfl
        | true => exact absurd (eq_of_beq hkk) (Ne.symm hak)
      simp [List.filter_cons, h1, List.lookup, h2, ih]

/-- C4: the session id of a start-backfill handler invocation is in the
registry exactly for the duration of the call: handler entry registers it,
mapped to the freshly allocated local interruptor cond (the next index in
the cond pool), and after the handler returns — by any path, normal,
interrupted, or early exit — the id is absent from the registry. -/
theorem session_registered_exactly_for_handler_duration
    (s s1 s2 : SysState) (sid : session_id_t) (c : Bool) :
    (step s (Event.start sid) = some s1 →
      s1.local_interruptors.lookup sid = some s.sigs.length) ∧
    (step s (Event.finish sid c) = some s2 →
      s2.local_interruptors.lookup sid = none) := by
  constructor
  · intro h
    simp only [step] at h
    split at h
    · cases h
    · split at h
      · cases h
      · next hl =>
        cases h
        exact lookup_append_self _ _ _ hl
  · intro h
    simp only [step] at h
    split at h
    · cases h
      exact lookup_filter_ne _ _
    · cases h

/-- Witness for C4: starting session 0 in the initial state registers it
at cond index 0; finishing it removes it from the registry. -/
theorem session_registered_exactly_for_handler_duration_witness :
    (SysState.mk [(0, 0)] [false] [] false false).local_interruptors.lookup 0 =
      some init.sigs.length ∧
    (SysState.mk [] [false] [] false false).local_interruptors.lookup 0 = none :=
  ⟨(session_registered_exactly_for_handler_duration init
      (SysState.mk [(0, 0)] [false] [] false false)
      (SysState.mk [] [false] [] false false) 0 false).1 (by decide),
   (session_registered_exactly_for_handler_duration
      (SysState.mk [(0, 0)] [false] [] false false)
      (SysState.mk [(0, 0)] [false] [] false false)
      (SysState.mk [] [false] [] false false) 0 false).2 (by decide)⟩

/-- C7: a cancel-backfill message whose session id is not currently in the
registry is a no-op: lines 88-92 act only when find succeeds, and
on_cancel_backfill contains no send and no other mutation, so the whole
state — registry, cond pool, issued completions, drain flags — is
unchanged and no error is produced. -/
theorem cancel_unknown_session_noop (s : SysState) (sid : session_id_t)
    (h : s.local_interruptors.lookup sid = none) : on_cancel_backfill s sid = s := by
  simp only [on_cancel_backfill, h]

/-- Witness for C7: cancelling the unknown session 3 in the initial state
changes nothing. -/
theorem cancel_unknown_session_noop_witness : on_cancel_backfill init 3 = init :=
  cancel_unknown_session_noop init 3 rfl

/-- C10: the cancel-backfill handler never changes the registry: it leaves
the local_interruptors entries — hence the set of registered session ids
and the result of every subsequent lookup — exactly as they were, and
issues no message; it only pulses the cond of the found entry. Insertion and
removal of entries happen solely in the start-backfill handler (lines
46-49 and its scope exit). -/
theorem cancel_preserves_registry (s : SysState) (sid : session_id_t) :
    (on_cancel_backfill s sid).local_interruptors = s.local_interruptors ∧
    (∀ sid2, (on_cancel_backfill s sid).local_interruptors.lookup sid2 =
      s.local_interruptors.lookup sid2) ∧
    (on_cancel_backfill s sid).sent_completions = s.sent_completions := by
  have h : (on_cancel_backfill s sid).local_interruptors = s.local_interruptors := by
    rw [on_cancel_backfill]
    split <;> rfl
  refine ⟨h, fun sid2 => by rw [h], ?_⟩
  rw [on_cancel_backfill]
  split <;> rfl

/-- Number of cancel-backfill messages for a given session id in an event
sequence. -/
def countCancel (t : List Event) (sid : session_id_t) : Nat :=
  t.countP fun e => match e with
    | Event.cancel s => s == sid
    | _ => false

/-- Registry well-formedness: registered session ids are pairwise
distinct, registered cond indices are pairwise distinct, and every
registered index points into the cond pool. -/
def RegWF (s : SysState) : Prop :=
  (s.local_interruptors.map Prod.fst).Nodup ∧
  (s.local_interruptors.map Prod.snd).Nodup ∧
  ∀ p ∈ s.local_interruptors, p.2 < s.sigs.length

/-- Every pulsed cond of a registered session was pulsed by some earlier
cancel message for that session id: on_cancel_backfill is the only writer
of registered conds (handlers never pulse their own local interruptor). -/
def PulseOrigin (t : List Event) (s : SysState) : Prop :=
  ∀ p ∈ s.local_interruptors, s.sigs.getD p.2 false = true → 1 ≤ countCancel t p.1

/-- Reachability invariant tying a state to the event sequence that
produced it. -/
def Inv (t : List Event) (s : SysState) : Prop := RegWF s ∧ PulseOrigin t s

/-- Appending an element on the right leaves earlier positions of getD
unchanged. -/
theorem getD_append_lt (l : List Bool) (x : Bool) (i : Nat) (h : i < l.length) :
    (l ++ [x]).getD i false = l.getD i false := by
  induction l generalizing i with
  | nil => simp at h
  | cons a t ih =>
    cases i with
    | zero => rfl
    | succ n => exact ih n (Nat.lt_of_succ_lt_succ h)

/-- The appended element sits at the old length. -/
theorem getD_append_len (l : List Bool) (x : Bool) :
    (l ++ [x]).getD l.length false = x := by
  induction l with
  | nil => rfl
  | cons a t ih => exact ih

/-- Setting position i to true makes getD at i read true. -/
theorem getD_set_self (l : List Bool) (i : Nat) (h : i < l.length) :
    (l.set i true).getD i false = true := by
  induction l generalizing i with
  | nil => simp at h
  | cons a t ih =>
    cases i with
    | zero => rfl
    | succ n => exact ih n (Nat.lt_of_succ_lt_succ h)

/-- Setting position i leaves getD at any other position unchanged. -/
theorem getD_set_ne (l : List Bool) (i j : Nat) (hne : i ≠ j) :
    (l.set i true).getD j false = l.getD j false := by
  induction l generalizing i j with
  | nil => rfl
  | cons a t ih =>
    cases i with
    | zero =>
      cases j with
      | zero => exact absurd rfl hne
      | succ m => rfl
    | succ n =>
      cases j with
      | zero => rfl
      | succ m => exact ih n m (fun hh => hne (by rw [hh]))

/-- A successful lookup yields a member of the association list. -/
theorem lookup_some_mem (l : List (session_id_t × Nat)) (k i : Nat)
    (h : l.lookup k = some i) : (k, i) ∈ l := by
  induction l with
  | nil => cases h
  | cons p t ih =>
    obtain ⟨a, b⟩ := p
    cases hc : k == a with
    | true =>
      simp only [List.lookup, hc] at h
      cases h
      have hka : k = a := eq_of_beq hc
      subst hka
      exact List.mem_cons_self _ _
    | false =>
      simp only [List.lookup, hc] at h
      exact List.mem_cons_of_mem _ (ih h)

/-- A failed lookup means the key is not among the registered keys. -/
theorem lookup_none_not_key (l : List (session_id_t × Nat)) (k : Nat)
    (h : l.lookup k = none) : k ∉ l.map Prod.fst := by
  induction l with
  | nil => simp
  | cons p t ih =>
    obtain ⟨a, b⟩ := p
    cases hc : k == a with
    | true =>
      simp only [List.lookup, hc] at h
      cases h
    | false =>
      simp only [List.lookup, hc] at h
      simp only [List.map_cons, List.mem_cons]
      intro hmem
      rcases hmem with h1 | h1
      · subst h1
        simp at hc
      · exact ih h h1

/-- An index at least as large as every registered index is fresh. -/
theorem fresh_index_not_snd (l : List (session_id_t × Nat)) (n : Nat)
    (h : ∀ p ∈ l, p.2 < n) : n ∉ l.map Prod.snd := by
  intro hmem
  rcases List.mem_map.mp hmem with ⟨p, hp, hpn⟩
  have := h p hp
  omega

/-- Appending a fresh element preserves Nodup. -/
theorem nodup_append_singleton {α : Type} (xs : List α) (y : α)
    (hx : xs.Nodup) (hy : y ∉ xs) : (xs ++ [y]).Nodup := by
  induction xs with
  | nil => simp
  | cons a t ih =>
    rw [List.cons_append, List.nodup_cons]
    rw [List.nodup_cons] at hx
    constructor
    · intro hmem
      rcases List.mem_append.mp hmem with h1 | h1
      · exact hx.1 h1
      · rcases List.mem_singleton.mp h1 with rfl
        exact hy (List.mem_cons_self a t)
    · exact ih hx.2 (fun hm => hy (List.mem_cons_of_mem a hm))

/-- countCancel distributes over append. -/
theorem countCancel_append (t1 t2 : List Event) (k : session_id_t) :
    countCancel (t1 ++ t2) k = countCancel t1 k + countCancel t2 k := by
  simp [countCancel, List.countP_append]

/-- Extending a trace cannot lower a cancel count. -/
theorem countCancel_le_append (t : List Event) (e : Event) (k : session_id_t) :
    countCancel t k ≤ countCancel (t ++ [e]) k := by
  rw [countCancel_append]
  omega

/-- Appending a cancel for k raises its count by one. -/
theorem countCancel_append_cancel (t : List Event) (k : session_id_t) :
    countCancel (t ++ [Event.cancel k]) k = countCancel t k + 1 := by
  rw [countCancel_append]
  simp [countCancel, List.countP_cons]

/-- Each atomic section preserves registry well-formedness and the pulse
origin bookkeeping. -/
theorem step_preserves_Inv (t : List Event) (s s1 : SysState) (e : Event)
    (hinv : Inv t s) (hstep : step s e = some s1) : Inv (t ++ [e]) s1 := by
  obtain ⟨⟨hkeys, hvals, hbound⟩, horig⟩ := hinv
  cases e with
  | start sid =>
    simp only [step] at hstep
    split at hstep
    · cases hstep
    · split at hstep
      · cases hstep
      · next hl =>
        cases hstep
        simp only [Inv, RegWF, PulseOrigin]
        refine ⟨⟨?_, ?_, ?_⟩, ?_⟩
        · rw [List.map_append]
          exact nodup_append_singleton _ _ hkeys (lookup_none_not_key _ _ hl)
        · rw [List.map_append]
          exact nodup_append_singleton _ _ hvals (fresh_index_not_snd _ _ hbound)
        · intro p hp
          rcases List.mem_append.mp hp with h1 | h1
          · have := hbound p h1
            simp only [List.length_append, List.length_singleton]
            omega
          · rcases List.mem_singleton.mp h1 with rfl
            simp [List.length_append]
        · intro p hp hpul
          rcases List.mem_append.mp hp with h1 | h1
          · rw [getD_append_lt _ _ _ (hbound p h1)] at hpul
            exact Nat.le_trans (horig p h1 hpul) (countCancel_le_append _ _ _)
          · rcases List.mem_singleton.mp h1 with rfl
            rw [getD_append_len] at hpul
            cases hpul
  | finish sid completed =>
    simp only [step] at hstep
    split at hstep
    · cases hstep
      simp only [Inv, RegWF, PulseOrigin]
      refine ⟨⟨?_, ?_, ?_⟩, ?_⟩
      · exact List.Nodup.sublist
          (List.Sublist.map Prod.fst (List.filter_sublist _)) hkeys
      · exact List.Nodup.sublist
          (List.Sublist.map Prod.snd (List.filter_sublist _)) hvals
      · intro p hp
        exact hbound p (List.mem_of_mem_filter hp)
      · intro p hp hpul
        exact Nat.le_trans (horig p (List.mem_of_mem_filter hp) hpul)
          (countCancel_le_append _ _ _)
    · cases hstep
  | cancel sid =>
    simp only [step] at hstep
    split at hstep
    · cases hstep
    · cases hstep
      cases hl : s.local_interruptors.lookup sid with
      | none =>
        simp only [on_cancel_backfill, hl]
        refine ⟨⟨hkeys, hvals, hbound⟩, ?_⟩
        intro p hp hpul
        exact Nat.le_trans (horig p hp hpul) (countCancel_le_append _ _ _)
      | some i =>
        have hmem : (sid, i) ∈ s.local_interruptors := lookup_some_mem _ _ _ hl
        simp only [on_cancel_backfill, hl, Inv, RegWF, PulseOrigin]
        refine ⟨⟨hkeys, hvals, ?_⟩, ?_⟩
        · intro p hp
          rw [List.length_set]
          exact hbound p hp
        · intro p hp hpul
          by_cases hpi : p.2 = i
          · have hp_eq : p = (sid, i) :=
              List.inj_on_of_nodup_map hvals hp hmem hpi
            rw [hp_eq, countCancel_append_cancel]
            omega
          · rw [getD_set_ne _ _ _ (fun hh => hpi hh.symm)] at hpul
            exact Nat.le_trans (horig p hp hpul) (countCancel_le_append _ _ _)
  | pulseDrain =>
    simp only [step] at hstep
    split at hstep
    · cases hstep
    · cases hstep
      refine ⟨⟨hkeys, hvals, hbound⟩, ?_⟩
      intro p hp hpul
      exact Nat.le_trans (horig p hp hpul) (countCancel_le_append _ _ _)
  | completeDrain =>
    simp only [step] at hstep
    split at hstep
    · cases hstep
      refine ⟨⟨hkeys, hvals, hbound⟩, ?_⟩
      intro p hp hpul
      exact Nat.le_trans (horig p hp hpul) (countCancel_le_append _ _ _)
    · cases hstep

/-- Running any suffix of events preserves the invariant. -/
theorem run_preserves_Inv (t2 : List Event) (t1 : List Event) (s0 s : SysState)
    (hinv : Inv t1 s0) (hrun : run s0 t2 = some s) : Inv (t1 ++ t2) s := by
  induction t2 generalizing t1 s0 with
  | nil =>
    simp only [run] at hrun
    cases hrun
    simpa using hinv
  | cons e t ih =>
    simp only [run] at hrun
    split at hrun
    · next s1 hstep =>
      have h1 := step_preserves_Inv t1 s0 s1 e hinv hstep
      have h2 := ih (t1 ++ [e]) s1 h1 hrun
      simpa [List.append_assoc] using h2
    · cases hrun

/-- The invariant holds in every state reachable from the initial state. -/
theorem run_Inv_from_start (t : List Event) (s : SysState)
    (hrun : run init t = some s) : Inv t s := by
  have h0 : Inv [] init := by
    refine ⟨⟨?_, ?_, ?_⟩, ?_⟩ <;> simp [init, RegWF, PulseOrigin]
  have h := run_preserves_Inv t [] init s h0 hrun
  simpa using h

/-- A cancel-backfill message for sid delivered in state s finds a
registered entry whose interrupt signal is already pulsed, so handling it
would trigger an already-triggered one-shot signal. -/
def cancelRetriggers (s : SysState) (sid : session_id_t) : Bool :=
  match s.local_interruptors.lookup sid with
  | some i => s.sigs.getD i false
  | none => false

/-- C8 counterexample: after the reachable message sequence start 0 then
cancel 0 — the handler of session 0 still registered, for example not yet
unwound from the store call — a further cancel 0 is deliverable (its
step is enabled) and pulses the already-pulsed signal of session 0. The claim
that a cancel for a present session id never triggers an
already-triggered signal under any reachable sequence of start-backfill
and cancel-backfill messages is therefore false: on_cancel_backfill has
no guard against a second cancel for a still-registered session. -/
theorem cancel_retriggers_pulsed_signal_cex :
    (run init [Event.start 0, Event.cancel 0]).map (fun s => cancelRetriggers s 0) =
      some true ∧
    (run init [Event.start 0, Event.cancel 0, Event.cancel 0]).isSome = true := by
  decide

/-- C8 amended: each cancel-backfill message for a registered session
pulses the interrupt signal of that session exactly once; and provided at most
one cancel message is sent per session id — a protocol condition the
registry itself does not enforce — the signal being pulsed has never
already been triggered. -/
theorem cancel_triggers_once_under_unique_cancels
    (t1 t2 : List Event) (sid i : Nat) (s : SysState)
    (hcount : countCancel (t1 ++ Event.cancel sid :: t2) sid ≤ 1)
    (hrun : run init t1 = some s)
    (hlook : s.local_interruptors.lookup sid = some i) :
    s.sigs.getD i false = false ∧
    (on_cancel_backfill s sid).sigs.getD i false = true := by
  obtain ⟨⟨hkeys, hvals, hbound⟩, horig⟩ := run_Inv_from_start t1 s hrun
  have hmem : (sid, i) ∈ s.local_interruptors := lookup_some_mem _ _ _ hlook
  have hzero : countCancel t1 sid = 0 := by
    have h := countCancel_append t1 (Event.cancel sid :: t2) sid
    have h2 : countCancel (Event.cancel sid :: t2) sid = countCancel t2 sid + 1 := by
      simp [countCancel, List.countP_cons]
    omega
  have hfalse : s.sigs.getD i false = false := by
    cases hgd : s.sigs.getD i false with
    | false => rfl
    | true =>
      exfalso
      have h3 : 1 ≤ countCancel t1 sid := horig (sid, i) hmem hgd
      omega
  refine ⟨hfalse, ?_⟩
  simp only [on_cancel_backfill, hlook]
  exact getD_set_self _ _ (hbound (sid, i) hmem)

/-- Witness for the amended C8: session 0 started and then cancelled once
in a trace with a single cancel; its signal was unpulsed and the cancel
pulses it. -/
theorem cancel_triggers_once_under_unique_cancels_witness :
    (SysState.mk [(0, 0)] [false] [] false false).sigs.getD 0 false = false ∧
    (on_cancel_backfill (SysState.mk [(0, 0)] [false] [] false false) 0).sigs.getD 0
      false = true :=
  cancel_triggers_once_under_unique_cancels [Event.start 0] [] 0 0
    (SysState.mk [(0, 0)] [false] [] false false) (by decide) (by decide) (by decide)

/-- The data members of backfiller_t, in their declaration order at lines
95-107. -/
inductive memberField where
  | cluster
  | branch_history
  | store
  | store_branch
  | drainer
  | local_interruptors
  | backfill_mailbox
  | cancel_backfill_mailbox
  | advertisement
deriving DecidableEq

/-- Declaration order of the members of backfiller_t, read off lines
95-107 of the source. -/
def memberDeclarationOrder : List memberField :=
  [memberField.cluster, memberField.branch_history, memberField.store,
   memberField.store_branch, memberField.drainer, memberField.local_interruptors,
   memberField.backfill_mailbox, memberField.cancel_backfill_mailbox,
   memberField.advertisement]

/-- Order in which the implicit destructor of backfiller_t destroys its
members: C++ destroys non-static data members in reverse order of
declaration. Destroying the advertisement member withdraws the
advertisement record; destroying the drainer member pulses the shared
drain signal and blocks until every in-flight handler has returned. -/
def destructionOrder : List memberField :=
  memberDeclarationOrder.reverse

/-- C6 counterexample: the claim requires the advertisement record to be
withdrawn only after the drain completes, which needs the drainer member
to be destroyed strictly before the advertisement member. In the actual
destruction order — the reverse of the declaration order of lines
95-107, where advertisement is declared last — the advertisement is
destroyed first, so the claimed ordering is false. -/
theorem advertisement_withdrawn_after_drain_cex :
    ¬ destructionOrder.indexOf memberField.drainer <
      destructionOrder.indexOf memberField.advertisement := by
  decide

/-- C6 amended: destruction of a backfiller withdraws the advertisement
record first (the advertisement member, declared last, is destroyed
before the drainer member); the shared drain signal is OR-combined into
the interrupt condition of every in-flight handler, so pulsing it fires
the combined interrupt of each handler; and the drain wait of destruction can
complete only when no in-flight handler remains registered (modelled from
the drain barrier of the spec, auto_drainer_t being repository code not under
src/). -/
theorem destruction_drains_with_or_combined_interrupt
    (l : Bool) (s s1 : SysState) :
    destructionOrder.indexOf memberField.advertisement <
      destructionOrder.indexOf memberField.drainer ∧
    interrupted_pulsed l true = true ∧
    (step s Event.completeDrain = some s1 →
      s.local_interruptors = [] ∧ s1.drained = true) := by
  refine ⟨by decide, by simp [interrupted_pulsed], ?_⟩
  intro h
  simp only [step] at h
  split at h
  · next hcond =>
    cases h
    refine ⟨?_, rfl⟩
    have h2 := (Bool.and_eq_true _ _).mp hcond
    exact List.isEmpty_iff.mp h2.2
  · cases h

/-- Witness for the amended C6: a drained-state transition from an empty
registry with the drain signal pulsed. -/
theorem destruction_drains_with_or_combined_interrupt_witness :
    (destructionOrder.indexOf memberField.advertisement <
      destructionOrder.indexOf memberField.drainer ∧
    interrupted_pulsed false true = true) ∧
    ((SysState.mk [] [] [] true false).local_interruptors = [] ∧
      (SysState.mk [] [] [] true true).drained = true) :=
  ⟨⟨(destruction_drains_with_or_combined_interrupt false
      (SysState.mk [] [] [] true false) (SysState.mk [] [] [] true true)).1,
    (destruction_drains_with_or_combined_interrupt false
      (SysState.mk [] [] [] true false) (SysState.mk [] [] [] true true)).2.1⟩,
   (destruction_drains_with_or_combined_interrupt false
      (SysState.mk [] [] [] true false) (SysState.mk [] [] [] true true)).2.2 (by decide)⟩

end Backfiller
